import Mathlib

/-!
Shallow embedding of `pCloudSync-deconflict.py` (single-file Python tool).

Strings and filesystem paths are modelled as `List Char` (`Str`), because the
program's string manipulation (`str.replace`, `str.split`, `str.lower`,
`str.startswith`, substring tests) must be executable by the kernel.  Each
embedded operation mirrors the semantics of the corresponding Python builtin
for a non-empty pattern: `replaceAll` is Python `str.replace(old, new)`
(left-to-right, non-overlapping, every occurrence), `splitOnStr` is
`str.split(sep)`, `isSub` is the `in` substring test, `isPre` is
`str.startswith`, `lowerStr` is ASCII `str.lower`, `trimStr` is `str.strip`.

The filesystem is modelled as a finite tree of named entries (`Entry`), file
contents as `List Nat` byte sequences, and the mount table as the list of
output lines of the external `mount` command.  Paths handed to the cloud
classifier are assumed already resolved (`Path.resolve` is the identity in
the model) and OS errors (permission, vanishing files) are not modelled:
the spec treats those as locally-recovered skip paths.
-/

namespace Deconflict

/-- Strings of the embedded program: lists of characters. -/
abbrev Str := List Char

/-- Conversion from Lean string literals to embedded strings. -/
def str (s : String) : Str := s.toList

/-- Python `a.startswith(b)` / string prefix test (`b` tested as prefix of the second argument). -/
def isPre : Str → Str → Bool
  | [], _ => true
  | _ :: _, [] => false
  | a :: as, b :: bs => a == b && isPre as bs

/-- Python `p in s` substring containment test. -/
def isSub (p : Str) : Str → Bool
  | [] => isPre p []
  | c :: cs => isPre p (c :: cs) || isSub p cs

/-- ASCII lower-casing of one character (Python `str.lower` restricted to ASCII input). -/
def lowerChar (c : Char) : Char :=
  if 65 ≤ c.toNat ∧ c.toNat ≤ 90 then Char.ofNat (c.toNat + 32) else c

/-- Python `s.lower()` (ASCII). -/
def lowerStr (s : Str) : Str := s.map lowerChar

/-- Whitespace characters stripped by Python `str.strip()`. -/
def isSpaceChar (c : Char) : Bool :=
  c == ' ' || c == '\t' || c == '\n' || c == '\r'

/-- Python `s.strip()`. -/
def trimStr (s : Str) : Str :=
  ((s.dropWhile isSpaceChar).reverse.dropWhile isSpaceChar).reverse

/-- The recursion of Python `s.replace(old, new)` over explicit fuel so that
the kernel can evaluate it; every step consumes at least one character, so
`s.length` fuel is always enough and the zero-fuel branch is unreachable
from `replaceAll`. -/
def replaceAllFuel (pat rep : Str) : Nat → Str → Str
  | 0, s => s
  | _ + 1, [] => []
  | f + 1, c :: cs =>
    if isPre pat (c :: cs) then rep ++ replaceAllFuel pat rep f (cs.drop (pat.length - 1))
    else c :: replaceAllFuel pat rep f cs

/-- Python `s.replace(old, new)` for a non-empty `old`: replace every
left-to-right non-overlapping occurrence of `pat` with `rep`. -/
def replaceAll (pat rep s : Str) : Str := replaceAllFuel pat rep s.length s

/-- The recursion of Python `s.split(sep)` over explicit fuel (`acc` holds
the characters of the current field in reverse); every step consumes at
least one character, so `s.length` fuel is always enough and the zero-fuel
branch is unreachable from `splitOnStr`. -/
def splitOnFuel (sep : Str) : Nat → Str → Str → List Str
  | 0, acc, s => [acc.reverse ++ s]
  | _ + 1, acc, [] => [acc.reverse]
  | f + 1, acc, c :: cs =>
    if isPre sep (c :: cs) then acc.reverse :: splitOnFuel sep f [] (cs.drop (sep.length - 1))
    else splitOnFuel sep f (c :: acc) cs

/-- Python `s.split(sep)` for a non-empty `sep`. -/
def splitOnStr (sep s : Str) : List Str := splitOnFuel sep s.length [] s

/-- Python `Path(dir) / name` for the path join used by the scanner. -/
def pathJoin (dir name : Str) : Str := dir ++ '/' :: name

/-- The cloud/network filesystem indicator substrings of `get_mount_points`
(source line 43). -/
def cloudIndicators : List Str :=
  [str r"fuse", str r"osxfuse", str r"macfuse", str r"sshfs",
   str r"webdav", str r"smb", str r"afp", str r"nfs"]

/-- Whether a mount-table line names a cloud/network filesystem: some
indicator occurs in the lower-cased line (source line 43). -/
def lineIsCloud (line : Str) : Bool :=
  cloudIndicators.any (fun i => isSub i (lowerStr line))

/-- Set-insertion into the accumulated mount set (Python `set.add`,
modelled on lists as append-if-absent). -/
def addMount (acc : List Str) (m : Str) : List Str :=
  if acc.contains m then acc else acc ++ [m]

/-- The mount path parsed from one mount-table line of the shape
`filesystem on /mount/point type fstype (options)` (source lines 38-41). -/
def parseMountLine (line : Str) : Option Str :=
  if isSub (str r" on ") line && isSub (str r" type ") line then
    let parts := splitOnStr (str r" on ") line
    if 2 ≤ parts.length then
      some (trimStr (((splitOnStr (str r" type ") (parts.getD 1 []))).headD []))
    else none
  else none

/-- `get_mount_points` (source lines 29-66): parse the external `mount`
command's output lines, keeping the mount path of every line carrying a
cloud/network indicator, then add the home-directory cloud-pattern glob
results (the `cloud_patterns` scan, supplied here as `homeCloudDirs`). -/
def get_mount_points (mountLines : List Str) (homeCloudDirs : List Str) : List Str :=
  let fromLines := mountLines.foldl
    (fun acc line =>
      match parseMountLine line with
      | some mountPath => if lineIsCloud line then addMount acc mountPath else acc
      | none => acc)
    []
  homeCloudDirs.foldl addMount fromLines

/-- `is_under_cloud_storage` (source lines 68-82); the path argument is the
already-resolved absolute path string. -/
def is_under_cloud_storage (path : Str) (mount_points : List Str) : Bool :=
  isSub (str r"/Library/Mobile Documents") path ||
  isSub (str r"/Library/CloudStorage") path ||
  mount_points.any (fun m => isPre m path)

/-- Metadata and content of one regular file (`os.stat` size and mtime,
content as a byte sequence). -/
structure FileData where
  size : Nat
  mtime : Str
  content : List Nat
deriving DecidableEq

/-- A filesystem subtree: a regular file, or a directory with its device
identifier (`st_dev`) and its entries in listing order. -/
inductive Entry where
  | file (name : Str) (data : FileData)
  | dir (name : Str) (device : Nat) (entries : List Entry)

/-- The name of a directory entry. -/
def entryName : Entry → Str
  | .file n _ => n
  | .dir n _ _ => n

/-- Whether an entry is a regular file (`Path.is_file`). -/
def entryIsFile : Entry → Bool
  | .file _ _ => true
  | .dir _ _ _ => false

/-- The device identifier of a directory entry (`os.stat(...).st_dev`);
for the scan root the source only ever stats a directory. -/
def entryDevice : Entry → Nat
  | .file _ _ => 0
  | .dir _ d _ => d

/-- Whether the directory listing `es` contains a regular file named `n`
(`original_file.exists() and original_file.is_file()` for a sibling path). -/
def hasFileNamed (es : List Entry) (n : Str) : Bool :=
  es.any (fun e => entryIsFile e && entryName e == n)

/-- The conflict marker substring `" [conflicted]"` (source lines 210, 231). -/
def conflictMarker : Str := str r" [conflicted]"

/-- The per-directory pair detection of `find_conflicted_pairs` (source
lines 206-219 and 226-237): for each regular file whose name contains the
conflict marker, compute the candidate original name by
`filename.replace(" [conflicted]", "")` and emit the
`(original, conflicted)` path pair when a sibling regular file of that name
exists. -/
def dirPairs (dirPath : Str) (es : List Entry) : List (Str × Str) :=
  es.filterMap (fun e =>
    match e with
    | .file name _ =>
      if isSub conflictMarker name then
        let originalName := replaceAll conflictMarker [] name
        if hasFileNamed es originalName then
          some (pathJoin dirPath originalName, pathJoin dirPath name)
        else none
      else none
    | .dir _ _ _ => none)

/-- Reason for which the recursive walk pruned a directory (progress-line
report `Skipping cloud storage:` or `Skipping mount point:`). -/
inductive SkipReason where
  | cloud
  | mount
deriving DecidableEq

/-- One boundary-pruning report of the recursive walk. -/
structure BoundarySkip where
  reason : SkipReason
  path : Str
deriving DecidableEq

mutual

/-- The `os.walk` traversal of `find_conflicted_pairs` (source lines
165-223): visit a directory, first applying the cloud-storage check and then
the device-boundary check (both only when `cross_device` is off, the device
check additionally only when `include_local_mounts` is off), pruning the
whole subtree on a hit; otherwise collect this directory's pairs and recurse
into subdirectories in listing order. -/
def walkEntry (crossDevice includeLocalMounts : Bool) (cloudMounts : List Str)
    (startDevice : Nat) (path : Str) : Entry → List (Str × Str) × List BoundarySkip
  | .file _ _ => ([], [])
  | .dir _ dev es =>
    if crossDevice = false ∧ is_under_cloud_storage path cloudMounts then
      ([], [⟨.cloud, path⟩])
    else if crossDevice = false ∧ includeLocalMounts = false ∧ dev ≠ startDevice then
      ([], [⟨.mount, path⟩])
    else
      let rest := walkEntries crossDevice includeLocalMounts cloudMounts startDevice path es
      (dirPairs path es ++ rest.1, rest.2)

/-- Walk each child entry of the directory at `path` in order, joining the
collected pairs and skip reports. -/
def walkEntries (crossDevice includeLocalMounts : Bool) (cloudMounts : List Str)
    (startDevice : Nat) (path : Str) : List Entry → List (Str × Str) × List BoundarySkip
  | [] => ([], [])
  | e :: es =>
    let r := walkEntry crossDevice includeLocalMounts cloudMounts startDevice
      (pathJoin path (entryName e)) e
    let rs := walkEntries crossDevice includeLocalMounts cloudMounts startDevice path es
    (r.1 ++ rs.1, r.2 ++ rs.2)

end

/-- `find_conflicted_pairs` (source lines 84-260).  `mountPoints` is the
result of the `get_mount_points()` call of source line 104; the function
returns the discovered pairs together with the boundary-skip reports of the
recursive walk (permission-error skip records are not modelled: the error-free
filesystem model never produces them). -/
def find_conflicted_pairs (directory : Str) (root : Entry) (recursive : Bool)
    (cross_device include_local_mounts : Bool) (mountPoints : List Str) :
    List (Str × Str) × List BoundarySkip :=
  let cloud_mounts := if cross_device = false then mountPoints else []
  let start_device := entryDevice root
  if recursive then
    walkEntry cross_device include_local_mounts cloud_mounts start_device directory root
  else
    match root with
    | .dir _ _ es => (dirPairs directory es, [])
    | .file _ _ => ([], [])

/-- The two comparison methods admitted by the `-m` option (`choices=["hash",
"byte"]`). -/
inductive CompareMethod where
  | hash
  | byte
deriving DecidableEq

/-- The result dictionary built by `compare_files` (source lines 262-298).
`reason` is set on every path out of the function once the method is one of
the two admitted ones; the hash fields are only populated by the hash
branch. -/
structure CompareResult where
  original : Str
  conflicted : Str
  identical : Bool
  method : CompareMethod
  original_size : Nat
  conflicted_size : Nat
  original_mtime : Str
  conflicted_mtime : Str
  reason : Str
  original_hash : Option Str
  conflicted_hash : Option Str
deriving DecidableEq

/-- `compare_files` (source lines 262-298), parametrised by the content hash
function (`get_file_hash`, a streaming SHA-256 in the source, left abstract
here).  The second component of the returned pair is instrumentation: it is
`true` exactly when the function read file content (`get_file_hash` or
`filecmp.cmp` was invoked), `false` on the size fast path. -/
def compare_files (hashFn : List Nat → Str) (file1 file2 : Str)
    (d1 d2 : FileData) (method : CompareMethod) : CompareResult × Bool :=
  let base : CompareResult :=
    { original := file1, conflicted := file2, identical := false,
      method := method, original_size := d1.size, conflicted_size := d2.size,
      original_mtime := d1.mtime, conflicted_mtime := d2.mtime,
      reason := [], original_hash := none, conflicted_hash := none }
  if d1.size ≠ d2.size then
    ({ base with identical := false, reason := str r"Different file sizes" }, false)
  else
    match method with
    | .hash =>
      let originalHash := hashFn d1.content
      let conflictedHash := hashFn d2.content
      let same := originalHash == conflictedHash
      ({ base with
          identical := same,
          original_hash := some originalHash,
          conflicted_hash := some conflictedHash,
          reason := if same then str r"Files are identical"
            else str r"Different content (hash mismatch)" }, true)
    | .byte =>
      let same := d1.content == d2.content
      ({ base with
          identical := same,
          reason := if same then str r"Files are identical"
            else str r"Different content (byte comparison)" }, true)

/-- A ledger entry (one element of the persisted `conflicts` array).  In the
source these are open dictionaries: a freshly observed conflict is literally
the `compare_files` result dictionary with tracking keys added, so the
comparison-derived fields are carried as an optional `payload` while the
tracking keys accessed by the ledger code are explicit optional fields
(absent key = `none`). -/
structure ConflictRecord where
  original : Str
  conflicted : Str
  payload : Option CompareResult
  last_seen : Option Str := none
  last_checked : Option Str := none
  still_exists : Option Bool := none
  resolved_at : Option Str := none
deriving DecidableEq

/-- A Python dict keyed by original path, modelled as an association list in
insertion order. -/
abbrev ConflictMap := List (Str × ConflictRecord)

/-- Whether the dict has an entry with key `k`. -/
def dictHas (m : ConflictMap) (k : Str) : Bool := m.any (fun p => p.1 == k)

/-- Python dict assignment `m[k] = v`: replace in place when the key exists,
append otherwise. -/
def dictUpsert (m : ConflictMap) (k : Str) (v : ConflictRecord) : ConflictMap :=
  if dictHas m k then m.map (fun p => if p.1 = k then (k, v) else p)
  else m ++ [(k, v)]

/-- Python dict lookup `m[k]` as an option (first entry with key `k`). -/
def dictFind (m : ConflictMap) (k : Str) : Option ConflictRecord :=
  match m with
  | [] => none
  | p :: t => if p.1 = k then some p.2 else dictFind t k

/-- The stored JSON document as far as `load_existing_conflicts` inspects it:
the record array under the current key `conflicts` or the older key `files`
(a `none` field models an absent key). -/
structure LedgerDoc where
  conflicts : Option (List ConflictRecord)
  files : Option (List ConflictRecord)

/-- The state of the snapshot file on disk when loaded: absent, present but
unparseable, or parsed into a document. -/
inductive LedgerFile where
  | absent
  | malformed (msg : Str)
  | parsed (doc : LedgerDoc)

/-- `load_existing_conflicts` (source lines 305-321): returns the loaded map
keyed by each record's `original` path, together with a flag recording
whether the non-fatal load warning was printed. -/
def load_existing_conflicts : LedgerFile → ConflictMap × Bool
  | .absent => ([], false)
  | .malformed _ => ([], true)
  | .parsed doc =>
    ((doc.conflicts.getD (doc.files.getD [])).foldl
      (fun m c => dictUpsert m c.original c) [], false)

/-- `validate_conflict_still_exists` (source lines 323-330): both paths of
the pair currently exist (`fileExists` is the ambient filesystem). -/
def validate_conflict_still_exists (fileExists : Str → Bool) (c : ConflictRecord) : Bool :=
  fileExists c.original && fileExists c.conflicted

/-- The stamping applied to each newly observed conflict before it is
upserted (source lines 338-342): `last_seen = now`, `still_exists = True`. -/
def stampNew (now : Str) (c : ConflictRecord) : ConflictRecord :=
  { c with last_seen := some now, still_exists := some true }

/-- The original-path keys of this run's new results (source line 346). -/
def newConflictKeys (different_files : List ConflictRecord) : List Str :=
  different_files.map (fun c => c.original)

/-- The re-validation pass applied to every entry of the merged map (source
lines 344-352): entries keyed by a new result are left alone; any other
entry is stamped `last_checked = now` when its pair still exists, and
otherwise gets `still_exists = False` and `resolved_at = now`
(unconditionally restamped). -/
def revalidate (fileExists : Str → Bool) (now : Str) (newKeys : List Str)
    (k : Str) (c : ConflictRecord) : ConflictRecord :=
  if k ∈ newKeys then c
  else if validate_conflict_still_exists fileExists c then
    { c with still_exists := some true, last_checked := some now }
  else
    { c with still_exists := some false, resolved_at := some now }

/-- The in-memory merge performed by `save_different_files_list` (source
lines 334-352): upsert every new result (stamped), then re-validate every
entry not keyed by a new result. -/
def mergeConflicts (existing : ConflictMap) (different_files : List ConflictRecord)
    (fileExists : Str → Bool) (now : Str) : ConflictMap :=
  let updated := different_files.foldl
    (fun m c => dictUpsert m c.original (stampNew now c)) existing
  updated.map (fun p =>
    (p.1, revalidate fileExists now (newConflictKeys different_files) p.1 p.2))

/-- `conflict.get('still_exists', True)` (source line 355). -/
def stillExistsOrTrue (c : ConflictRecord) : Bool := c.still_exists.getD true

/-- The snapshot document written by `save_different_files_list` (source
lines 359-365). -/
structure Snapshot where
  last_updated : Str
  total_active_conflicts : Nat
  total_resolved_conflicts : Nat
  conflicts : List ConflictRecord
deriving DecidableEq

/-- The stored form of a snapshot as later re-read by
`load_existing_conflicts`: the record array sits under the key `conflicts`
(never under the legacy key `files`). -/
def Snapshot.toDoc (s : Snapshot) : LedgerDoc :=
  { conflicts := some s.conflicts, files := none }

/-- `save_different_files_list` (source lines 332-367) given the already
loaded prior map (`existing`, the result of its `load_existing_conflicts`
call): merge, count active and resolved records, and rewrite the whole
snapshot.  Returns the snapshot together with the function's
`(active, resolved)` count return values. -/
def save_different_files_list (different_files : List ConflictRecord)
    (existing : ConflictMap) (fileExists : Str → Bool) (now : Str) :
    Snapshot × Nat × Nat :=
  let merged := mergeConflicts existing different_files fileExists now
  let allConflicts := merged.map (fun p => p.2)
  let active := allConflicts.filter stillExistsOrTrue
  (⟨now, active.length, allConflicts.length - active.length, allConflicts⟩,
    active.length, allConflicts.length - active.length)

/-- Whether path `p` exists in the ambient file set (`Path.exists`). -/
def pathExistsIn (fs : List Str) (p : Str) : Bool := fs.any (fun q => q == p)

/-- Remove a path from the file set (`Path.unlink`). -/
def removePath (fs : List Str) (p : Str) : List Str := fs.filter (fun q => !(q == p))

/-- Add a path to the file set (the target of `Path.rename`). -/
def addPath (fs : List Str) (p : Str) : List Str := fs ++ [p]

/-- Join path components with `/` (inverse of splitting). -/
def joinParts : List Str → Str
  | [] => []
  | [p] => p
  | p :: ps => p ++ '/' :: joinParts ps

/-- Python `Path(p).name`: the last `/`-separated component. -/
def fileNameOf (p : Str) : Str := ((splitOnStr (str r"/") p).reverse).headD []

/-- Python `Path(p).parent` (as the joined leading components). -/
def parentOf (p : Str) : Str := joinParts (splitOnStr (str r"/") p).dropLast

/-- One console report produced by `resolve_conflicts_dry_run` for a
conflict item: either the missing-files warning (source line 524) or the
preview block listing the actions that would be available (source lines
527-548). -/
inductive DryRunEvent where
  | missing (idx : Nat) (original conflicted : Str)
  | preview (idx : Nat) (original conflicted : Str) (actions : List Str)
deriving DecidableEq

/-- The four actions listed by the dry-run preview (source lines 543-547). -/
def dryRunActions : List Str :=
  [str r"keep_original", str r"keep_conflicted", str r"skip", str r"view"]

/-- The enumeration loop of `resolve_conflicts_dry_run` (source lines
518-548), with `enumerate(different_files, 1)` indices. -/
def dryRunGo (fs : List Str) : Nat → List CompareResult → List DryRunEvent
  | _, [] => []
  | i, c :: cs =>
    (if pathExistsIn fs c.original && pathExistsIn fs c.conflicted then
      DryRunEvent.preview i c.original c.conflicted dryRunActions
    else
      DryRunEvent.missing i c.original c.conflicted) :: dryRunGo fs (i + 1) cs

/-- `resolve_conflicts_dry_run` (source lines 509-553).  `stdin` is the
stream of user-input tokens available to the process; the dry-run variant
never reads it.  Returns the (unchanged) file set, the reports in order, and
the function's return value `len(different_files)`. -/
def resolve_conflicts_dry_run (different_files : List CompareResult)
    (fs : List Str) (_stdin : List Str) : List Str × List DryRunEvent × Nat :=
  if different_files.isEmpty then (fs, [], 0)
  else (fs, dryRunGo fs 1 different_files, different_files.length)

/-- The terminal outcome of one `resolve_conflict_interactive` prompt loop
(source lines 458-507).  The `d`/`v` sub-actions redisplay without changing
state, so the input stream is modelled as the sequence of terminal decision
tokens, as the spec's state machine prescribes. -/
inductive Decision where
  | keepOriginal
  | keepConflicted
  | skip
  | quit
deriving DecidableEq

/-- The loop body of `resolve_conflicts` (source lines 555-605): per
still-existing conflict consume one decision; `keep_original` unlinks the
conflicted file, `keep_conflicted` unlinks the original and renames the
conflicted file to the original's name inside its own directory, `skip`
moves on, `quit` (or an exhausted input stream, modelling the terminal
closing) stops the loop.  Returns the file set, the resolved count, and the
unconsumed decisions. -/
def resolveGo (fs : List Str) (ds : List Decision) (count : Nat) :
    List CompareResult → List Str × Nat × List Decision
  | [] => (fs, count, ds)
  | c :: cs =>
    if !(pathExistsIn fs c.original && pathExistsIn fs c.conflicted) then
      resolveGo fs ds count cs
    else
      match ds with
      | [] => (fs, count, [])
      | d :: rest =>
        match d with
        | .keepOriginal =>
          resolveGo (removePath fs c.conflicted) rest (count + 1) cs
        | .keepConflicted =>
          let newPath := pathJoin (parentOf c.conflicted) (fileNameOf c.original)
          resolveGo (addPath (removePath (removePath fs c.original) c.conflicted) newPath)
            rest (count + 1) cs
        | .skip => resolveGo fs rest count cs
        | .quit => (fs, count, rest)

/-- `resolve_conflicts` (source lines 555-605). -/
def resolve_conflicts (different_files : List CompareResult) (fs : List Str)
    (ds : List Decision) : List Str × Nat × List Decision :=
  resolveGo fs ds 0 different_files

/-- A new ledger record as built in `save_different_files_list` from one
comparison result: in the source the result dictionary itself becomes the
record, so its comparison fields travel as the payload and no tracking key
is present yet. -/
def CompareResult.toRecord (r : CompareResult) : ConflictRecord :=
  { original := r.original, conflicted := r.conflicted, payload := some r }

mutual

/-- All regular-file paths (with data) of the subtree whose own path is
`path`. -/
def treeFilesEntry (path : Str) : Entry → List (Str × FileData)
  | .file _ d => [(path, d)]
  | .dir _ _ es => treeFilesList path es

/-- All regular-file paths (with data) below a directory at `path`. -/
def treeFilesList (path : Str) : List Entry → List (Str × FileData)
  | [] => []
  | e :: es => treeFilesEntry (pathJoin path (entryName e)) e ++ treeFilesList path es

end

/-- Lookup of a file's stat/content data by path. -/
def findFileData (table : List (Str × FileData)) (q : Str) : FileData :=
  match table with
  | [] => ⟨0, [], []⟩
  | p :: t => if p.1 = q then p.2 else findFileData t q

/-- The command-line options consumed by `main` after parsing (source lines
607-678). -/
structure Args where
  recursive : Bool
  method : CompareMethod
  verbose : Bool
  show_identical : Bool
  auto_delete : Bool
  dry_run : Bool
  no_progress : Bool
  cross_device : Bool
  include_local_mounts : Bool
  resolve : Bool

/-- What the scan-root path argument names on disk: nothing, a non-directory
entry, or a directory subtree. -/
inductive RootTarget where
  | missing
  | nonDirectory
  | directory (root : Entry)

/-- The running state of `main`'s comparison loop (source lines 704-777). -/
structure ScanState where
  fs : List Str
  deleted : List Str
  different : List CompareResult
  identicalCount : Nat
  differentCount : Nat
  confirms : List Bool

/-- One iteration of `main`'s comparison loop (source lines 710-777):
compare the pair; an identical pair is a deletion candidate (recorded in dry
run, deleted under `--auto-delete`, otherwise deleted only on a consumed
`y` confirmation, with an exhausted input stream behaving as a declined
confirmation); a differing pair is appended to `different_files`. -/
def processPair (args : Args) (hashFn : List Nat → Str)
    (table : List (Str × FileData)) (st : ScanState) (pr : Str × Str) : ScanState :=
  let d1 := findFileData table pr.1
  let d2 := findFileData table pr.2
  let result := (compare_files hashFn pr.1 pr.2 d1 d2 args.method).1
  if result.identical then
    if args.dry_run then
      { st with identicalCount := st.identicalCount + 1, deleted := st.deleted ++ [pr.2] }
    else if args.auto_delete then
      { st with
        identicalCount := st.identicalCount + 1,
        fs := removePath st.fs pr.2,
        deleted := st.deleted ++ [pr.2] }
    else
      match st.confirms with
      | [] => { st with identicalCount := st.identicalCount + 1 }
      | b :: rest =>
        if b then
          { st with
            identicalCount := st.identicalCount + 1,
            fs := removePath st.fs pr.2,
            deleted := st.deleted ++ [pr.2],
            confirms := rest }
        else
          { st with identicalCount := st.identicalCount + 1, confirms := rest }
  else
    { st with
      different := st.different ++ [result],
      differentCount := st.differentCount + 1 }

/-- The observable outcome of one process invocation. -/
structure MainResult where
  exitCode : Nat
  stderrMsgs : List Str
  scanStarted : Bool
  finalFs : List Str
  saved : Option (Snapshot × Nat × Nat)

/-- `main` (source lines 607-824) over the modelled environment: the parsed
arguments, what the scan-root path names, the mount-table lines and
home-directory cloud folders seen by `get_mount_points`, the abstract
content hash, the on-disk state of the output ledger file, the confirmation
and decision input streams, and the current timestamp.  Validation failures
exit with status 1 before any scanning; otherwise the pipeline runs and the
process falls off the end of `main` with status 0. -/
def main (args : Args) (pathArg : Str) (target : RootTarget)
    (mountLines homeCloudDirs : List Str) (hashFn : List Nat → Str)
    (ledger : LedgerFile) (confirms : List Bool) (decisions : List Decision)
    (now : Str) : MainResult :=
  match target with
  | .missing =>
    { exitCode := 1, stderrMsgs := [str r"Error: Path does not exist"],
      scanStarted := false, finalFs := [], saved := none }
  | .nonDirectory =>
    { exitCode := 1, stderrMsgs := [str r"Error: Path is not a directory"],
      scanStarted := false, finalFs := [], saved := none }
  | .directory root =>
    let mountPoints := get_mount_points mountLines homeCloudDirs
    let pairs := (find_conflicted_pairs pathArg root args.recursive
      args.cross_device args.include_local_mounts mountPoints).1
    let fs0 := (treeFilesEntry pathArg root).map (fun p => p.1)
    let outcome : List Str × Option (Snapshot × Nat × Nat) :=
      if pairs.isEmpty then (fs0, none)
      else
        let table := treeFilesEntry pathArg root
        let st := pairs.foldl (processPair args hashFn table)
          ⟨fs0, [], [], 0, 0, confirms⟩
        let afterResolve :=
          if args.resolve ∧ st.different ≠ [] then
            if args.dry_run then
              let _ := resolve_conflicts_dry_run st.different st.fs []
              (st.fs, st.different)
            else
              let r := resolve_conflicts st.different st.fs decisions
              let pruned := if 0 < r.2.1 then
                st.different.filter (fun c =>
                  pathExistsIn r.1 c.original && pathExistsIn r.1 c.conflicted)
              else st.different
              (r.1, pruned)
          else (st.fs, st.different)
        let ledgerOnDisk := match ledger with
          | .absent => false
          | _ => true
        let saved :=
          if !afterResolve.2.isEmpty || ledgerOnDisk then
            some (save_different_files_list (afterResolve.2.map CompareResult.toRecord)
              (load_existing_conflicts ledger).1
              (pathExistsIn afterResolve.1) now)
          else none
        (afterResolve.1, saved)
    { exitCode := 0, stderrMsgs := [], scanStarted := true,
      finalFs := outcome.1, saved := outcome.2 }

/-! ### Association-list lemmas for the ledger dictionary -/

/-- Appending an entry with a different key does not change a lookup. -/
theorem dictFind_append_single_ne (m : ConflictMap) (k k' : Str) (v : ConflictRecord)
    (h : k' ≠ k) : dictFind (m ++ [(k', v)]) k = dictFind m k := by
  induction m with
  | nil => simp [dictFind, h]
  | cons p t ih => simp only [List.cons_append, dictFind, List.append_eq, ih]

/-- In-place replacement at a different key does not change a lookup. -/
theorem dictFind_map_update_ne (m : ConflictMap) (k k' : Str) (v : ConflictRecord)
    (h : k' ≠ k) :
    dictFind (m.map (fun p => if p.1 = k' then (k', v) else p)) k = dictFind m k := by
  induction m with
  | nil => simp [dictFind]
  | cons p t ih =>
    simp only [List.map_cons, dictFind, ih]
    by_cases hpk' : p.1 = k'
    · simp [hpk', h]
    · simp [hpk']

/-- `dictUpsert` at a different key does not change a lookup. -/
theorem dictFind_upsert_ne (m : ConflictMap) (k k' : Str) (v : ConflictRecord)
    (h : k' ≠ k) : dictFind (dictUpsert m k' v) k = dictFind m k := by
  unfold dictUpsert
  by_cases hh : dictHas m k'
  · rw [if_pos hh]
    exact dictFind_map_update_ne m k k' v h
  · rw [if_neg hh]
    exact dictFind_append_single_ne m k k' v h

/-- In-place replacement at a present key makes a lookup find the new value. -/
theorem dictFind_map_update_self (m : ConflictMap) (k : Str) (v : ConflictRecord) :
    dictHas m k = true →
      dictFind (m.map (fun p => if p.1 = k then (k, v) else p)) k = some v := by
  induction m with
  | nil => intro hh; simp [dictHas] at hh
  | cons p t ih =>
    intro hh
    simp only [List.map_cons, dictFind]
    by_cases hpk : p.1 = k
    · simp [hpk]
    · have ht : dictHas t k = true := by
        simp only [dictHas, List.any_cons, Bool.or_eq_true_iff, beq_iff_eq] at hh
        rcases hh with h1 | h1
        · exact absurd h1 hpk
        · exact h1
      simp [hpk, ih ht]

/-- Appending at an absent key makes a lookup find the appended value. -/
theorem dictFind_append_self (m : ConflictMap) (k : Str) (v : ConflictRecord) :
    dictHas m k = false → dictFind (m ++ [(k, v)]) k = some v := by
  induction m with
  | nil => intro _; simp [dictFind]
  | cons p t ih =>
    intro hh
    simp only [dictHas, List.any_cons, Bool.or_eq_false_iff, beq_eq_false_iff_ne] at hh
    have ht : dictHas t k = false := hh.2
    simp only [List.cons_append, dictFind, List.append_eq]
    rw [if_neg hh.1]
    exact ih ht

/-- `dictUpsert` stores the value it was given at its own key. -/
theorem dictFind_upsert_self (m : ConflictMap) (k : Str) (v : ConflictRecord) :
    dictFind (dictUpsert m k v) k = some v := by
  unfold dictUpsert
  by_cases hh : dictHas m k = true
  · rw [if_pos hh]
    exact dictFind_map_update_self m k v hh
  · rw [if_neg hh]
    exact dictFind_append_self m k v (by simpa using hh)

/-- Upserting a batch of records none of whose keys is `k` does not change
the lookup at `k`. -/
theorem dictFind_foldl_upsert_ne (df : List ConflictRecord)
    (g : ConflictRecord → ConflictRecord) (k : Str)
    (h : ∀ c ∈ df, c.original ≠ k) :
    ∀ m : ConflictMap,
      dictFind (df.foldl (fun m c => dictUpsert m c.original (g c)) m) k = dictFind m k := by
  induction df with
  | nil => intro m; rfl
  | cons c t ih =>
    intro m
    simp only [List.foldl_cons]
    rw [ih (fun x hx => h x (List.mem_cons_of_mem c hx))]
    exact dictFind_upsert_ne m k c.original (g c) (h c (List.mem_cons_self c t))

/-- A keyed value map commutes with lookup. -/
theorem dictFind_mapVal (m : ConflictMap) (f : Str → ConflictRecord → ConflictRecord)
    (k : Str) :
    dictFind (m.map (fun p => (p.1, f p.1 p.2))) k = (dictFind m k).map (f k) := by
  induction m with
  | nil => simp [dictFind]
  | cons p t ih =>
    simp only [List.map_cons, dictFind, ih]
    by_cases hpk : p.1 = k
    · simp [hpk]
    · simp [hpk]

/-- The merged map's entry at a key not observed in this run is the
re-validated prior entry. -/
theorem dictFind_merge (ex : ConflictMap) (df : List ConflictRecord)
    (fe : Str → Bool) (now k : Str) (c : ConflictRecord)
    (hnew : ∀ c' ∈ df, c'.original ≠ k) (hk : dictFind ex k = some c) :
    dictFind (mergeConflicts ex df fe now) k =
      some (revalidate fe now (newConflictKeys df) k c) := by
  unfold mergeConflicts
  rw [dictFind_mapVal, dictFind_foldl_upsert_ne df _ k hnew, hk]
  rfl

/-- A value found in the map occurs among the map's values. -/
theorem dictFind_mem_values (m : ConflictMap) (k : Str) (v : ConflictRecord)
    (h : dictFind m k = some v) : v ∈ m.map (fun p => p.2) := by
  induction m with
  | nil => simp [dictFind] at h
  | cons p t ih =>
    by_cases hpk : p.1 = k
    · simp only [dictFind, if_pos hpk, Option.some.injEq] at h
      rw [List.map_cons, ← h]
      exact List.mem_cons_self _ _
    · simp only [dictFind, if_neg hpk] at h
      rw [List.map_cons]
      exact List.mem_cons_of_mem _ (ih h)

/-- A key none of this run's results carries is not in `newConflictKeys`. -/
theorem not_mem_newConflictKeys (df : List ConflictRecord) (k : Str)
    (h : ∀ c ∈ df, c.original ≠ k) : k ∉ newConflictKeys df := by
  simp only [newConflictKeys, List.mem_map, not_exists]
  rintro c ⟨hc, he⟩
  exact h c hc he

/-- C1 (counterexample): a prior-ledger record already carrying
`resolved_at = "T0"`, whose pair is still absent from disk, has its
`resolved_at` value overwritten with the new merge time `"T1"` by
`save_different_files_list`'s merge, so the once-only stamping stated by the
claim does not hold. -/
theorem resolved_at_restamped_cex :
    dictFind
        (mergeConflicts
          [(str r"/o",
            { original := str r"/o", conflicted := str r"/c", payload := none,
              still_exists := some false, resolved_at := some (str r"T0") })]
          [] (fun _ => false) (str r"T1"))
        (str r"/o") =
      some
        { original := str r"/o", conflicted := str r"/c", payload := none,
          still_exists := some false, resolved_at := some (str r"T1") } ∧
    (some (str r"T1") : Option Str) ≠ some (str r"T0") := by
  constructor
  · decide
  · decide

/-- C1 (amended): in the ledger merge, every existing record whose key is
not among this run's new results and whose pair is validated absent from
disk gets `resolved_at := now` stamped unconditionally — any previously
stored `resolved_at` value is overwritten by every such merge, not only by
the first transition to absence. -/
theorem merge_restamps_resolved_at_each_absent_merge (ex : ConflictMap)
    (df : List ConflictRecord) (fe : Str → Bool) (now k : Str) (c : ConflictRecord)
    (hnew : ∀ c' ∈ df, c'.original ≠ k) (hk : dictFind ex k = some c)
    (habsent : validate_conflict_still_exists fe c = false) :
    dictFind (mergeConflicts ex df fe now) k =
      some { c with still_exists := some false, resolved_at := some now } := by
  rw [dictFind_merge ex df fe now k c hnew hk]
  unfold revalidate
  rw [if_neg (not_mem_newConflictKeys df k hnew), if_neg (by simp [habsent])]

/-- C1 (amended) witness at a concrete absent pair with a prior stamp. -/
theorem merge_restamps_resolved_at_witness :
    dictFind
        (mergeConflicts
          [(str r"/o",
            { original := str r"/o", conflicted := str r"/c", payload := none,
              still_exists := some false, resolved_at := some (str r"T0") })]
          [] (fun _ => false) (str r"T1"))
        (str r"/o") =
      some
        { original := str r"/o", conflicted := str r"/c", payload := none,
          still_exists := some false, resolved_at := some (str r"T1") } :=
  merge_restamps_resolved_at_each_absent_merge
    [(str r"/o",
      { original := str r"/o", conflicted := str r"/c", payload := none,
        still_exists := some false, resolved_at := some (str r"T0") })]
    [] (fun _ => false) (str r"T1") (str r"/o")
    { original := str r"/o", conflicted := str r"/c", payload := none,
      still_exists := some false, resolved_at := some (str r"T0") }
    (by simp) (by decide) (by decide)

/-- C4: every prior-ledger record whose key is absent from this run's new
results is re-validated in place — stamped `last_checked = now` with
`still_exists = true` when both its files still exist, and stamped
`still_exists = false` with `resolved_at = now` when either is absent — and
in both cases the (updated) record is retained in the `conflicts` array of
the snapshot written by the save. -/
theorem merge_retains_and_revalidates_old_records (ex : ConflictMap)
    (df : List ConflictRecord) (fe : Str → Bool) (now k : Str) (c : ConflictRecord)
    (hnew : ∀ c' ∈ df, c'.original ≠ k) (hk : dictFind ex k = some c) :
    (validate_conflict_still_exists fe c = true →
      dictFind (mergeConflicts ex df fe now) k =
        some { c with still_exists := some true, last_checked := some now } ∧
      { c with still_exists := some true, last_checked := some now } ∈
        (save_different_files_list df ex fe now).1.conflicts) ∧
    (validate_conflict_still_exists fe c = false →
      dictFind (mergeConflicts ex df fe now) k =
        some { c with still_exists := some false, resolved_at := some now } ∧
      { c with still_exists := some false, resolved_at := some now } ∈
        (save_different_files_list df ex fe now).1.conflicts) := by
  have hfind := dictFind_merge ex df fe now k c hnew hk
  have hmem := not_mem_newConflictKeys df k hnew
  constructor
  · intro hval
    have heq : dictFind (mergeConflicts ex df fe now) k =
        some { c with still_exists := some true, last_checked := some now } := by
      rw [hfind]
      unfold revalidate
      rw [if_neg hmem, if_pos hval]
    exact ⟨heq, dictFind_mem_values _ _ _ heq⟩
  · intro hval
    have heq : dictFind (mergeConflicts ex df fe now) k =
        some { c with still_exists := some false, resolved_at := some now } := by
      rw [hfind]
      unfold revalidate
      rw [if_neg hmem, if_neg (by simp [hval])]
    exact ⟨heq, dictFind_mem_values _ _ _ heq⟩

/-- C4 witness: a concrete retained record whose pair still exists. -/
theorem merge_retains_old_records_witness :
    dictFind
        (mergeConflicts
          [(str r"/o",
            { original := str r"/o", conflicted := str r"/c", payload := none })]
          [] (fun _ => true) (str r"T1"))
        (str r"/o") =
      some
        { original := str r"/o", conflicted := str r"/c", payload := none,
          still_exists := some true, last_checked := some (str r"T1") } ∧
    ({ original := str r"/o", conflicted := str r"/c", payload := none,
        still_exists := some true, last_checked := some (str r"T1") } : ConflictRecord) ∈
      (save_different_files_list []
        [(str r"/o", { original := str r"/o", conflicted := str r"/c", payload := none })]
        (fun _ => true) (str r"T1")).1.conflicts :=
  (merge_retains_and_revalidates_old_records
    [(str r"/o", { original := str r"/o", conflicted := str r"/c", payload := none })]
    [] (fun _ => true) (str r"T1") (str r"/o")
    { original := str r"/o", conflicted := str r"/c", payload := none }
    (by simp) (by decide)).1 (by decide)

/-- C3: whenever the two files' sizes differ, `compare_files` returns the
size fast-path verdict for either comparison method: `identical = false`,
the size-mismatch reason, no hash field populated, and the instrumentation
flag recording that no file content was read. -/
theorem compare_files_size_mismatch_fast_path (hashFn : List Nat → Str)
    (file1 file2 : Str) (d1 d2 : FileData) (method : CompareMethod)
    (h : d1.size ≠ d2.size) :
    compare_files hashFn file1 file2 d1 d2 method =
      ({ original := file1, conflicted := file2, identical := false,
          method := method, original_size := d1.size, conflicted_size := d2.size,
          original_mtime := d1.mtime, conflicted_mtime := d2.mtime,
          reason := str r"Different file sizes",
          original_hash := none, conflicted_hash := none }, false) := by
  unfold compare_files
  rw [if_pos h]

/-- C3 witness: a concrete size mismatch under the hash method. -/
theorem compare_files_size_mismatch_witness :
    (1 : Nat) ≠ 2 ∧
    compare_files (fun _ => []) (str r"/a") (str r"/b")
        ⟨1, str r"TA", [7]⟩ ⟨2, str r"TB", [7, 7]⟩ CompareMethod.hash =
      ({ original := str r"/a", conflicted := str r"/b", identical := false,
          method := CompareMethod.hash, original_size := 1, conflicted_size := 2,
          original_mtime := str r"TA", conflicted_mtime := str r"TB",
          reason := str r"Different file sizes",
          original_hash := none, conflicted_hash := none }, false) :=
  ⟨by decide,
    compare_files_size_mismatch_fast_path (fun _ => []) (str r"/a") (str r"/b")
      ⟨1, str r"TA", [7]⟩ ⟨2, str r"TB", [7, 7]⟩ CompareMethod.hash (by decide)⟩

/-- C7: from the mount-table line
`"//server/share on /Volumes/share type smbfs (rw)"` the classifier records
`/Volumes/share` as a cloud mount and then excludes every path under it,
while from `"/dev/disk1s1 on / type apfs (rw)"` no mount is recorded and `/`
is not excluded. -/
theorem mount_classifier_smb_excluded_apfs_not :
    get_mount_points [str r"//server/share on /Volumes/share type smbfs (rw)"] [] =
      [str r"/Volumes/share"] ∧
    (∀ p : Str,
      isPre (str r"/Volumes/share") p = true →
        is_under_cloud_storage p
          (get_mount_points
            [str r"//server/share on /Volumes/share type smbfs (rw)"] []) = true) ∧
    get_mount_points [str r"/dev/disk1s1 on / type apfs (rw)"] [] = [] ∧
    is_under_cloud_storage (str r"/")
      (get_mount_points [str r"/dev/disk1s1 on / type apfs (rw)"] []) = false := by
  refine ⟨by decide, ?_, by decide, by decide⟩
  intro p hp
  have hm : get_mount_points
      [str r"//server/share on /Volumes/share type smbfs (rw)"] [] =
      [str r"/Volumes/share"] := by decide
  rw [hm]
  simp [is_under_cloud_storage, hp]

/-- C7 witness: a concrete path below the recorded smb mount is excluded. -/
theorem mount_classifier_smb_excluded_witness :
    is_under_cloud_storage (str r"/Volumes/share/docs/report.txt")
      (get_mount_points
        [str r"//server/share on /Volumes/share type smbfs (rw)"] []) = true :=
  mount_classifier_smb_excluded_apfs_not.2.1
    (str r"/Volumes/share/docs/report.txt") (by decide)

/-- Directory contents for exercising marker removal on a filename that
contains the conflict marker twice: the sibling files `a`,
`a [conflicted]` and `a [conflicted] [conflicted]`. -/
def doubleMarkerEntries : List Entry :=
  [ Entry.file (str r"a") ⟨1, str r"t", [1]⟩,
    Entry.file (str r"a [conflicted]") ⟨1, str r"t", [2]⟩,
    Entry.file (str r"a [conflicted] [conflicted]") ⟨1, str r"t", [3]⟩ ]

/-- C2 (counterexample): for the conflicted filename
`a [conflicted] [conflicted]` the scanner pairs it with `/root/a` — the
name with **both** marker occurrences removed — and not with
`/root/a [conflicted]` (one occurrence removed), even though a regular file
of that name exists in the same directory; so the claim's
remove-exactly-one-occurrence rule does not describe the code. -/
theorem marker_removed_once_cex :
    (str r"/root/a [conflicted]", str r"/root/a [conflicted] [conflicted]") ∉
      (find_conflicted_pairs (str r"/root") (Entry.dir (str r"root") 0 doubleMarkerEntries)
        false false false []).1 ∧
    (str r"/root/a", str r"/root/a [conflicted] [conflicted]") ∈
      (find_conflicted_pairs (str r"/root") (Entry.dir (str r"root") 0 doubleMarkerEntries)
        false false false []).1 := by
  constructor
  · decide
  · decide

/-- C2 (amended): for every regular file whose name contains the conflict
marker, the scanner's candidate original filename is the name with **every**
left-to-right non-overlapping occurrence of the marker removed
(`str.replace` with no count), and the pair is emitted when a sibling
regular file of that candidate name exists; in particular a filename
carrying the marker twice maps to the name with both occurrences removed. -/
theorem scanner_removes_every_marker_occurrence
    (dirPath : Str) (es : List Entry) (name : Str) (d : FileData)
    (hmem : Entry.file name d ∈ es)
    (hmark : isSub conflictMarker name = true)
    (horig : hasFileNamed es (replaceAll conflictMarker [] name) = true) :
    (pathJoin dirPath (replaceAll conflictMarker [] name), pathJoin dirPath name)
      ∈ dirPairs dirPath es ∧
    replaceAll conflictMarker [] (str r"a [conflicted] [conflicted]") = str r"a" := by
  constructor
  · apply List.mem_filterMap.mpr
    exact ⟨Entry.file name d, hmem, by simp [hmark, horig]⟩
  · decide

/-- C2 (amended) witness on the double-marker directory. -/
theorem scanner_removes_every_marker_occurrence_witness :
    (pathJoin (str r"/root")
        (replaceAll conflictMarker [] (str r"a [conflicted] [conflicted]")),
      pathJoin (str r"/root") (str r"a [conflicted] [conflicted]"))
      ∈ dirPairs (str r"/root") doubleMarkerEntries ∧
    replaceAll conflictMarker [] (str r"a [conflicted] [conflicted]") = str r"a" :=
  scanner_removes_every_marker_occurrence (str r"/root") doubleMarkerEntries
    (str r"a [conflicted] [conflicted]") ⟨1, str r"t", [3]⟩
    (by simp [doubleMarkerEntries]) (by decide) (by decide)

/-- The pair type of ledger entries is inhabited (stated explicitly so that
instance search never has to look for it). -/
instance : Nonempty (Str × ConflictRecord) :=
  ⟨⟨[], { original := [], conflicted := [], payload := none }⟩⟩

/-- Well-formedness of a ledger map as built by load and merge: every entry
is keyed by its record's `original` path and keys are unique. -/
def MapWF (m : ConflictMap) : Prop :=
  (∀ p ∈ m, p.2.original = p.1) ∧ (m.map (fun p => p.1)).Nodup

/-- `dictHas` is false exactly when no entry carries the key. -/
theorem dictHas_eq_false_iff (m : ConflictMap) (k : Str) :
    dictHas m k = false ↔ ∀ p ∈ m, p.1 ≠ k := by
  simp [dictHas, List.any_eq_false]

/-- The keys of an upsert at a present key are unchanged. -/
theorem dictUpsert_keys_present (m : ConflictMap) (k : Str) (v : ConflictRecord)
    (hh : dictHas m k = true) :
    (dictUpsert m k v).map (fun p => p.1) = m.map (fun p => p.1) := by
  unfold dictUpsert
  rw [if_pos hh, List.map_map]
  apply List.map_congr_left
  intro p _
  by_cases hpk : p.1 = k
  · simp [hpk]
  · simp [hpk]

/-- `dictUpsert` preserves well-formedness when the value carries its key. -/
theorem MapWF_upsert (m : ConflictMap) (k : Str) (v : ConflictRecord)
    (hwf : MapWF m) (hv : v.original = k) : MapWF (dictUpsert m k v) := by
  by_cases hh : dictHas m k = true
  · constructor
    · intro p hp
      unfold dictUpsert at hp
      rw [if_pos hh] at hp
      rcases List.mem_map.mp hp with ⟨q, hq, he⟩
      by_cases hqk : q.1 = k
      · rw [if_pos hqk] at he
        rw [← he]
        exact hv
      · rw [if_neg hqk] at he
        rw [← he]
        exact hwf.1 q hq
    · rw [dictUpsert_keys_present m k v hh]
      exact hwf.2
  · have hh' : dictHas m k = false := by simpa using hh
    constructor
    · intro p hp
      unfold dictUpsert at hp
      rw [if_neg (by simp [hh'])] at hp
      rcases List.mem_append.mp hp with hp1 | hp1
      · exact hwf.1 p hp1
      · rcases List.mem_singleton.mp hp1 with rfl
        exact hv
    · unfold dictUpsert
      rw [if_neg (by simp [hh']), List.map_append]
      simp only [List.map_cons, List.map_nil]
      rw [List.nodup_append]
      refine ⟨hwf.2, List.nodup_singleton k, ?_⟩
      intro a ha hk
      rcases List.mem_singleton.mp hk with rfl
      rcases List.mem_map.mp ha with ⟨q, hq, he⟩
      exact (dictHas_eq_false_iff m a).mp hh' q hq he

/-- Batch upserts of records under a key-preserving stamp keep the map
well-formed. -/
theorem MapWF_foldl_upsert (df : List ConflictRecord)
    (g : ConflictRecord → ConflictRecord) (hg : ∀ c, (g c).original = c.original) :
    ∀ m : ConflictMap, MapWF m →
      MapWF (df.foldl (fun m c => dictUpsert m c.original (g c)) m) := by
  induction df with
  | nil => intro m hm; exact hm
  | cons c t ih =>
    intro m hm
    simp only [List.foldl_cons]
    exact ih _ (MapWF_upsert m c.original (g c) hm (hg c))

/-- `revalidate` never changes a record's `original` path. -/
theorem revalidate_original (fe : Str → Bool) (now : Str) (newKeys : List Str)
    (k : Str) (c : ConflictRecord) : (revalidate fe now newKeys k c).original = c.original := by
  unfold revalidate
  split
  · rfl
  · split
    · rfl
    · rfl

/-- The merge of `save_different_files_list` keeps the map well-formed. -/
theorem MapWF_merge (ex : ConflictMap) (df : List ConflictRecord)
    (fe : Str → Bool) (now : Str) (hwf : MapWF ex) :
    MapWF (mergeConflicts ex df fe now) := by
  unfold mergeConflicts
  have h1 : MapWF (df.foldl (fun m c => dictUpsert m c.original (stampNew now c)) ex) :=
    MapWF_foldl_upsert df (stampNew now) (fun c => rfl) ex hwf
  constructor
  · intro p hp
    rcases List.mem_map.mp hp with ⟨q, hq, he⟩
    rw [← he]
    simpa [revalidate_original] using h1.1 q hq
  · rw [List.map_map]
    have : ((fun p => p.1) ∘ fun p : Str × ConflictRecord =>
        (p.1, revalidate fe now (newConflictKeys df) p.1 p.2)) = fun p => p.1 := by
      funext p
      rfl
    rw [this]
    exact h1.2

/-- Folding the values of a well-formed map back through `dictUpsert`
rebuilds the map itself (after any accumulator whose keys are disjoint). -/
theorem foldl_upsert_values (m : ConflictMap) :
    ∀ acc : ConflictMap, MapWF m → (∀ p ∈ m, ∀ q ∈ acc, q.1 ≠ p.1) →
      (m.map (fun p => p.2)).foldl (fun a c => dictUpsert a c.original c) acc = acc ++ m := by
  induction m with
  | nil => intro acc _ _; simp
  | cons p t ih =>
    intro acc hwf hdisj
    have hpk : p.2.original = p.1 := hwf.1 p (List.mem_cons_self p t)
    have hacc : dictHas acc p.2.original = false := by
      rw [hpk]
      exact (dictHas_eq_false_iff acc p.1).mpr
        (fun q hq => hdisj p (List.mem_cons_self p t) q hq)
    simp only [List.map_cons, List.foldl_cons]
    rw [show dictUpsert acc p.2.original p.2 = acc ++ [(p.1, p.2)] by
      unfold dictUpsert
      rw [if_neg (by simp [hacc]), hpk]]
    have hwt : MapWF t := by
      refine ⟨fun q hq => hwf.1 q (List.mem_cons_of_mem p hq), ?_⟩
      have := hwf.2
      simp only [List.map_cons, List.nodup_cons] at this
      exact this.2
    have hknot : p.1 ∉ t.map (fun q => q.1) := by
      have := hwf.2
      simp only [List.map_cons, List.nodup_cons] at this
      exact this.1
    have hdisj' : ∀ x ∈ t, ∀ q ∈ acc ++ [(p.1, p.2)], q.1 ≠ x.1 := by
      intro x hx q hq
      rcases List.mem_append.mp hq with hq1 | hq1
      · exact hdisj x (List.mem_cons_of_mem p hx) q hq1
      · rcases List.mem_singleton.mp hq1 with rfl
        intro hc
        exact hknot (by rw [hc]; exact List.mem_map_of_mem _ hx)
    rw [ih (acc ++ [(p.1, p.2)]) hwt hdisj']
    simp

/-- C6: ledger load is total and non-fatal — an absent snapshot file loads
as the empty map with no warning, a malformed file loads as the empty map
with the warning surfaced, the legacy `files` array key loads exactly like
the current `conflicts` key — and a snapshot written by the save carries the
record array under the `conflicts` key, so re-loading it recovers the merged
map exactly. -/
theorem ledger_load_total_and_schema_tolerant :
    load_existing_conflicts LedgerFile.absent = ([], false) ∧
    (∀ msg, load_existing_conflicts (LedgerFile.malformed msg) = ([], true)) ∧
    (∀ arr : List ConflictRecord,
      load_existing_conflicts (LedgerFile.parsed ⟨none, some arr⟩) =
        load_existing_conflicts (LedgerFile.parsed ⟨some arr, none⟩)) ∧
    (∀ (df : List ConflictRecord) (ex : ConflictMap) (fe : Str → Bool) (now : Str),
      MapWF ex →
        load_existing_conflicts
            (LedgerFile.parsed (Snapshot.toDoc (save_different_files_list df ex fe now).1)) =
          (mergeConflicts ex df fe now, false)) := by
  refine ⟨rfl, fun _ => rfl, fun arr => rfl, ?_⟩
  intro df ex fe now hwf
  have hm : MapWF (mergeConflicts ex df fe now) := MapWF_merge ex df fe now hwf
  simp only [load_existing_conflicts, save_different_files_list, Snapshot.toDoc,
    Option.getD_some]
  rw [foldl_upsert_values (mergeConflicts ex df fe now) [] hm (by simp)]
  simp

/-- C6 witness: a save over concrete inputs round-trips through load. -/
theorem ledger_load_total_witness :
    load_existing_conflicts
        (LedgerFile.parsed
          (Snapshot.toDoc
            (save_different_files_list
              [{ original := str r"/o", conflicted := str r"/c", payload := none }]
              [] (fun _ => true) (str r"T")).1)) =
      (mergeConflicts []
        [{ original := str r"/o", conflicted := str r"/c", payload := none }]
        (fun _ => true) (str r"T"), false) :=
  ledger_load_total_and_schema_tolerant.2.2.2
    [{ original := str r"/o", conflicted := str r"/c", payload := none }]
    [] (fun _ => true) (str r"T")
    ⟨fun p hp => absurd hp (List.not_mem_nil p), List.nodup_nil⟩

/-- `dictHas` distributes over append. -/
theorem dictHas_append (m m2 : ConflictMap) (k : Str) :
    dictHas (m ++ m2) k = (dictHas m k || dictHas m2 k) := by
  simp [dictHas, List.any_append]

/-- `dictUpsert` at an absent key appends. -/
theorem dictUpsert_absent (m : ConflictMap) (k : Str) (v : ConflictRecord)
    (h : dictHas m k = false) : dictUpsert m k v = m ++ [(k, v)] := by
  unfold dictUpsert
  rw [if_neg (by simp [h])]

/-- Upserting a batch of fresh, mutually distinct keys appends the batch in
order. -/
theorem foldl_upsert_disjoint (df : List ConflictRecord)
    (g : ConflictRecord → ConflictRecord) :
    ∀ m : ConflictMap, (df.map fun c => c.original).Nodup →
      (∀ c ∈ df, dictHas m c.original = false) →
      df.foldl (fun m c => dictUpsert m c.original (g c)) m =
        m ++ df.map (fun c => (c.original, g c)) := by
  induction df with
  | nil => intro m _ _; simp
  | cons c t ih =>
    intro m hnd hdis
    have hnd' : (t.map fun c => c.original).Nodup :=
      (List.nodup_cons.mp (by simpa using hnd)).2
    have hnotin : c.original ∉ t.map fun x => x.original :=
      (List.nodup_cons.mp (by simpa using hnd)).1
    simp only [List.foldl_cons]
    rw [dictUpsert_absent m c.original (g c) (hdis c (List.mem_cons_self c t))]
    rw [ih (m ++ [(c.original, g c)]) hnd' ?_]
    · simp
    · intro x hx
      rw [dictHas_append, hdis x (List.mem_cons_of_mem c hx), Bool.false_or]
      rw [(dictHas_eq_false_iff _ _).mpr]
      intro p hp
      rcases List.mem_singleton.mp hp with rfl
      intro hc
      exact hnotin (by
        rw [show c.original = x.original from hc]
        exact List.mem_map_of_mem _ hx)

/-- `dictUpsert` below a head entry with a different key. -/
theorem dictUpsert_cons_ne (q : Str × ConflictRecord) (m : ConflictMap) (k : Str)
    (v : ConflictRecord) (h : q.1 ≠ k) :
    dictUpsert (q :: m) k v = q :: dictUpsert m k v := by
  unfold dictUpsert
  have hq : dictHas (q :: m) k = dictHas m k := by
    simp [dictHas, List.any_cons, h]
  by_cases hm : dictHas m k = true
  · rw [hq, if_pos hm, if_pos hm, List.map_cons, if_neg h]
  · have hm' : dictHas m k = false := by simpa using hm
    rw [hq, if_neg (by simp [hm']), if_neg (by simp [hm']), List.cons_append]

/-- A batch upsert that never touches the head key keeps the head in place. -/
theorem foldl_upsert_cons_untouched (df : List ConflictRecord)
    (g : ConflictRecord → ConflictRecord) (q : Str × ConflictRecord) :
    ∀ m : ConflictMap, (∀ c ∈ df, c.original ≠ q.1) →
      df.foldl (fun m c => dictUpsert m c.original (g c)) (q :: m) =
        q :: df.foldl (fun m c => dictUpsert m c.original (g c)) m := by
  induction df with
  | nil => intro m _; rfl
  | cons c t ih =>
    intro m h
    simp only [List.foldl_cons]
    rw [dictUpsert_cons_ne q m c.original (g c) (Ne.symm (h c (List.mem_cons_self c t)))]
    exact ih _ (fun x hx => h x (List.mem_cons_of_mem c hx))

/-- A conditional identity map over entries avoiding the key is the
identity. -/
theorem map_update_id (m : ConflictMap) (k : Str) (v : ConflictRecord) :
    (∀ p ∈ m, p.1 ≠ k) → m.map (fun p => if p.1 = k then (k, v) else p) = m := by
  induction m with
  | nil => intro _; rfl
  | cons p t ih =>
    intro h
    rw [List.map_cons, if_neg (h p (List.mem_cons_self p t)),
      ih (fun q hq => h q (List.mem_cons_of_mem p hq))]

/-- Upserting the head key of a duplicate-free map replaces the head only. -/
theorem dictUpsert_head_nodup (k : Str) (v v' : ConflictRecord) (m : ConflictMap)
    (h : ∀ p ∈ m, p.1 ≠ k) : dictUpsert ((k, v) :: m) k v' = (k, v') :: m := by
  unfold dictUpsert
  rw [if_pos (by simp [dictHas]), List.map_cons, if_pos rfl, map_update_id m k v' h]

/-- Re-upserting every key of a freshly built batch map overwrites each
value in place. -/
theorem foldl_upsert_overwrite (df : List ConflictRecord)
    (g g' : ConflictRecord → ConflictRecord) :
    (df.map fun c => c.original).Nodup →
      df.foldl (fun m c => dictUpsert m c.original (g' c))
          (df.map (fun c => (c.original, g c))) =
        df.map (fun c => (c.original, g' c)) := by
  induction df with
  | nil => intro _; rfl
  | cons c t ih =>
    intro hnd
    have hnd' : (t.map fun c => c.original).Nodup :=
      (List.nodup_cons.mp (by simpa using hnd)).2
    have hnotin : c.original ∉ t.map fun x => x.original :=
      (List.nodup_cons.mp (by simpa using hnd)).1
    have htail : ∀ p ∈ t.map (fun x => (x.original, g x)), p.1 ≠ c.original := by
      intro p hp
      rcases List.mem_map.mp hp with ⟨x, hx, rfl⟩
      intro hc
      exact hnotin (by rw [← hc]; exact List.mem_map_of_mem _ hx)
    simp only [List.map_cons, List.foldl_cons]
    rw [dictUpsert_head_nodup c.original (g c) (g' c) _ htail]
    rw [foldl_upsert_cons_untouched t g' (c.original, g' c) _ ?_]
    · rw [ih hnd']
    · intro x hx
      intro hc
      exact hnotin (by
        rw [← show x.original = c.original from hc]
        exact List.mem_map_of_mem _ hx)

/-- The re-validation pass over a batch-built map acts on each value. -/
theorem mapVal_pairs (df : List ConflictRecord) (g : ConflictRecord → ConflictRecord)
    (F : Str → ConflictRecord → ConflictRecord) :
    (df.map (fun c => (c.original, g c))).map (fun p => (p.1, F p.1 p.2)) =
      df.map (fun c => (c.original, F c.original (g c))) := by
  rw [List.map_map]
  rfl

/-- `revalidate` leaves entries keyed by a new result alone. -/
theorem revalidate_of_mem (fe : Str → Bool) (now : Str) (newKeys : List Str)
    (k : Str) (c : ConflictRecord) (h : k ∈ newKeys) :
    revalidate fe now newKeys k c = c := by
  unfold revalidate
  rw [if_pos h]

/-- `revalidate` stamps `last_checked` on a still-existing old entry. -/
theorem revalidate_still_exists (fe : Str → Bool) (now : Str) (newKeys : List Str)
    (k : Str) (c : ConflictRecord) (h : k ∉ newKeys)
    (hv : validate_conflict_still_exists fe c = true) :
    revalidate fe now newKeys k c =
      { c with still_exists := some true, last_checked := some now } := by
  unfold revalidate
  rw [if_neg h, if_pos hv]

/-- A first merge into the empty ledger stores each new result stamped. -/
theorem mergeConflicts_fresh (R1 : List ConflictRecord) (fe : Str → Bool) (t1 : Str)
    (hnd : (R1.map fun c => c.original).Nodup) :
    mergeConflicts [] R1 fe t1 = R1.map (fun c => (c.original, stampNew t1 c)) := by
  unfold mergeConflicts
  rw [foldl_upsert_disjoint R1 (stampNew t1) [] hnd (fun c _ => by simp [dictHas]),
    List.nil_append, mapVal_pairs]
  apply List.map_congr_left
  intro c hc
  have hmem : c.original ∈ newConflictKeys R1 := List.mem_map_of_mem _ hc
  rw [revalidate_of_mem fe t1 _ c.original (stampNew t1 c) hmem]

/-- A filter by `still_exists` over all-active records keeps everything. -/
theorem filter_still_true (l : List ConflictRecord)
    (h : ∀ c ∈ l, stillExistsOrTrue c = true) : l.filter stillExistsOrTrue = l :=
  List.filter_eq_self.mpr h

/-- A record with its three timestamp fields blanked, for comparing ledger
record content up to timestamps. -/
def eraseStamps (c : ConflictRecord) : ConflictRecord :=
  { c with last_seen := none, last_checked := none, resolved_at := none }

/-- C5: merging new results `R1` into an empty ledger and then a
disjoint-keyed batch `R2` (with every `R1` pair still on disk) yields a
snapshot holding each record of both batches as active, with active count
`|R1| + |R2|` and resolved count `0`; and merging `R1` a second time with
identical content is idempotent — the same active and resolved counts and
the same record content up to the timestamp fields. -/
theorem ledger_merge_disjoint_union_and_idempotent
    (R1 R2 : List ConflictRecord) (fe : Str → Bool) (t1 t2 : Str)
    (h1 : (R1.map fun c => c.original).Nodup)
    (h2 : (R2.map fun c => c.original).Nodup)
    (hd : ∀ c ∈ R1, ∀ c2 ∈ R2, c.original ≠ c2.original)
    (hex : ∀ c ∈ R1, fe c.original = true ∧ fe c.conflicted = true) :
    ((save_different_files_list R2 (mergeConflicts [] R1 fe t1) fe t2).1.conflicts =
        R1.map (fun c =>
          { c with
            last_seen := some t1,
            still_exists := some true,
            last_checked := some t2 }) ++
        R2.map (fun c => { c with last_seen := some t2, still_exists := some true }) ∧
      (save_different_files_list R2 (mergeConflicts [] R1 fe t1) fe t2).2.1 =
        R1.length + R2.length ∧
      (save_different_files_list R2 (mergeConflicts [] R1 fe t1) fe t2).2.2 = 0) ∧
    ((save_different_files_list R1 (mergeConflicts [] R1 fe t1) fe t2).2.1 =
        (save_different_files_list R1 [] fe t1).2.1 ∧
      (save_different_files_list R1 (mergeConflicts [] R1 fe t1) fe t2).2.2 =
        (save_different_files_list R1 [] fe t1).2.2 ∧
      (save_different_files_list R1 (mergeConflicts [] R1 fe t1) fe t2).1.conflicts.map
          eraseStamps =
        (save_different_files_list R1 [] fe t1).1.conflicts.map eraseStamps) := by
  have hL1 : mergeConflicts [] R1 fe t1 = R1.map (fun c => (c.original, stampNew t1 c)) :=
    mergeConflicts_fresh R1 fe t1 h1
  have hdisj2 : ∀ c2 ∈ R2,
      dictHas (R1.map (fun c => (c.original, stampNew t1 c))) c2.original = false := by
    intro c2 hc2
    apply (dictHas_eq_false_iff _ _).mpr
    intro p hp
    rcases List.mem_map.mp hp with ⟨c, hc, rfl⟩
    exact fun hcc => hd c hc c2 hc2 (show c.original = c2.original from hcc)
  have hmA : mergeConflicts (mergeConflicts [] R1 fe t1) R2 fe t2 =
      R1.map (fun c => (c.original,
        { c with
          last_seen := some t1,
          still_exists := some true,
          last_checked := some t2 })) ++
      R2.map (fun c => (c.original, stampNew t2 c)) := by
    rw [hL1]
    unfold mergeConflicts
    rw [foldl_upsert_disjoint R2 (stampNew t2) _ h2 hdisj2, List.map_append,
      mapVal_pairs, mapVal_pairs]
    congr 1
    · apply List.map_congr_left
      intro c hc
      have hknot : c.original ∉ newConflictKeys R2 := by
        simp only [newConflictKeys, List.mem_map, not_exists]
        rintro c2 ⟨hc2, he⟩
        exact hd c hc c2 hc2 he.symm
      have hv : validate_conflict_still_exists fe (stampNew t1 c) = true := by
        show (fe c.original && fe c.conflicted) = true
        rw [(hex c hc).1, (hex c hc).2]
        rfl
      rw [revalidate_still_exists fe t2 _ _ _ hknot hv]
      rfl
    · apply List.map_congr_left
      intro c hc
      have hmem : c.original ∈ newConflictKeys R2 := List.mem_map_of_mem _ hc
      rw [revalidate_of_mem fe t2 (newConflictKeys R2) c.original (stampNew t2 c) hmem]
  have hmB : mergeConflicts (mergeConflicts [] R1 fe t1) R1 fe t2 =
      R1.map (fun c => (c.original, stampNew t2 c)) := by
    rw [hL1]
    unfold mergeConflicts
    rw [foldl_upsert_overwrite R1 (stampNew t1) (stampNew t2) h1, mapVal_pairs]
    apply List.map_congr_left
    intro c hc
    have hmem : c.original ∈ newConflictKeys R1 := List.mem_map_of_mem _ hc
    rw [revalidate_of_mem fe t2 (newConflictKeys R1) c.original (stampNew t2 c) hmem]
  have hactA : ∀ c ∈ (mergeConflicts (mergeConflicts [] R1 fe t1) R2 fe t2).map
      (fun p => p.2), stillExistsOrTrue c = true := by
    intro c hc
    rw [hmA, List.map_append] at hc
    rcases List.mem_append.mp hc with h | h <;>
      · rw [List.map_map] at h
        rcases List.mem_map.mp h with ⟨x, hx, rfl⟩
        rfl
  have hactB : ∀ c ∈ (mergeConflicts (mergeConflicts [] R1 fe t1) R1 fe t2).map
      (fun p => p.2), stillExistsOrTrue c = true := by
    intro c hc
    rw [hmB, List.map_map] at hc
    rcases List.mem_map.mp hc with ⟨x, hx, rfl⟩
    rfl
  have hact1 : ∀ c ∈ (mergeConflicts [] R1 fe t1).map (fun p => p.2),
      stillExistsOrTrue c = true := by
    intro c hc
    rw [hL1, List.map_map] at hc
    rcases List.mem_map.mp hc with ⟨x, hx, rfl⟩
    rfl
  refine ⟨⟨?_, ?_, ?_⟩, ?_, ?_, ?_⟩
  · simp only [save_different_files_list]
    rw [hmA, List.map_append, List.map_map, List.map_map]
    rfl
  · simp only [save_different_files_list]
    rw [filter_still_true _ hactA, hmA]
    simp
  · simp only [save_different_files_list]
    rw [filter_still_true _ hactA]
    exact Nat.sub_self _
  · simp only [save_different_files_list]
    rw [filter_still_true _ hactB, filter_still_true _ hact1, hmB, hL1]
    simp
  · simp only [save_different_files_list]
    rw [filter_still_true _ hactB, filter_still_true _ hact1]
    rw [Nat.sub_self, Nat.sub_self]
  · simp only [save_different_files_list]
    rw [hmB, hL1, List.map_map, List.map_map, List.map_map, List.map_map]
    rfl

/-- C5 witness: one-record batches with disjoint keys over a filesystem in
which every file exists. -/
theorem ledger_merge_disjoint_union_witness :
    (save_different_files_list
        [{ original := str r"/p2", conflicted := str r"/q2", payload := none }]
        (mergeConflicts []
          [{ original := str r"/p1", conflicted := str r"/q1", payload := none }]
          (fun _ => true) (str r"T1"))
        (fun _ => true) (str r"T2")).2.1 = 2 :=
  ((ledger_merge_disjoint_union_and_idempotent
      [{ original := str r"/p1", conflicted := str r"/q1", payload := none }]
      [{ original := str r"/p2", conflicted := str r"/q2", payload := none }]
      (fun _ => true) (str r"T1") (str r"T2")
      (by decide) (by decide) (by decide) (by decide)).1).2.1

/-- The `(original, conflicted, actions)` content of a preview report;
missing-file warnings project to `none`. -/
def previewEntry : DryRunEvent → Option (Str × Str × List Str)
  | .preview _ o c a => some (o, c, a)
  | .missing _ _ _ => none

/-- The preview reports of the dry-run enumeration are exactly the
still-existing pairs, in order, each with the advertised actions. -/
theorem dryRunGo_previews (fs : List Str) (df : List CompareResult) :
    ∀ i, (dryRunGo fs i df).filterMap previewEntry =
      (df.filter (fun c =>
        pathExistsIn fs c.original && pathExistsIn fs c.conflicted)).map
        (fun c => (c.original, c.conflicted, dryRunActions)) := by
  induction df with
  | nil => intro i; rfl
  | cons c t ih =>
    intro i
    by_cases hc : (pathExistsIn fs c.original && pathExistsIn fs c.conflicted) = true
    · simp [dryRunGo, hc, previewEntry, List.filter_cons, ih]
    · have hc' : (pathExistsIn fs c.original && pathExistsIn fs c.conflicted) = false := by
        simpa using hc
      simp [dryRunGo, hc', previewEntry, List.filter_cons, ih]

/-- C8: the dry-run resolution variant mutates nothing (the file set it
returns is its input), is independent of the user-input stream (which it
never reads), enumerates exactly the still-existing differing pairs — one
preview each, in order, listing the available actions — and returns the
total pair count. -/
theorem dry_run_no_mutation_enumerates_pairs
    (different_files : List CompareResult) (fs : List Str) (s1 s2 : List Str) :
    resolve_conflicts_dry_run different_files fs s1 =
      resolve_conflicts_dry_run different_files fs s2 ∧
    (resolve_conflicts_dry_run different_files fs s1).1 = fs ∧
    ((resolve_conflicts_dry_run different_files fs s1).2.1).filterMap previewEntry =
      (different_files.filter (fun c =>
        pathExistsIn fs c.original && pathExistsIn fs c.conflicted)).map
        (fun c => (c.original, c.conflicted, dryRunActions)) ∧
    (resolve_conflicts_dry_run different_files fs s1).2.2 =
      different_files.length := by
  refine ⟨rfl, ?_, ?_, ?_⟩
  · unfold resolve_conflicts_dry_run
    split <;> rfl
  · unfold resolve_conflicts_dry_run
    split
    · rename_i h
      rw [List.isEmpty_iff.mp h]
      rfl
    · exact dryRunGo_previews fs different_files 1
  · unfold resolve_conflicts_dry_run
    split
    · rename_i h
      rw [List.isEmpty_iff.mp h]
      rfl
    · rfl

/-- C9: an invocation whose scan-root path does not exist, or names a
non-directory, writes a message to stderr and exits with code 1 before any
scanning begins; an invocation whose scan root is a directory always exits
with code 0 — including when the scan finds no conflict pairs. -/
theorem main_exit_codes :
    (∀ (args : Args) (pathArg : Str) (mountLines homeCloudDirs : List Str)
        (hashFn : List Nat → Str) (ledger : LedgerFile) (confirms : List Bool)
        (decisions : List Decision) (now : Str),
      (main args pathArg RootTarget.missing mountLines homeCloudDirs hashFn ledger
          confirms decisions now).exitCode = 1 ∧
      (main args pathArg RootTarget.missing mountLines homeCloudDirs hashFn ledger
          confirms decisions now).stderrMsgs ≠ [] ∧
      (main args pathArg RootTarget.missing mountLines homeCloudDirs hashFn ledger
          confirms decisions now).scanStarted = false) ∧
    (∀ (args : Args) (pathArg : Str) (mountLines homeCloudDirs : List Str)
        (hashFn : List Nat → Str) (ledger : LedgerFile) (confirms : List Bool)
        (decisions : List Decision) (now : Str),
      (main args pathArg RootTarget.nonDirectory mountLines homeCloudDirs hashFn ledger
          confirms decisions now).exitCode = 1 ∧
      (main args pathArg RootTarget.nonDirectory mountLines homeCloudDirs hashFn ledger
          confirms decisions now).stderrMsgs ≠ [] ∧
      (main args pathArg RootTarget.nonDirectory mountLines homeCloudDirs hashFn ledger
          confirms decisions now).scanStarted = false) ∧
    (∀ (args : Args) (pathArg : Str) (root : Entry) (mountLines homeCloudDirs : List Str)
        (hashFn : List Nat → Str) (ledger : LedgerFile) (confirms : List Bool)
        (decisions : List Decision) (now : Str),
      (main args pathArg (RootTarget.directory root) mountLines homeCloudDirs hashFn
          ledger confirms decisions now).exitCode = 0) := by
  refine ⟨?_, ?_, ?_⟩
  · intro args pathArg mountLines homeCloudDirs hashFn ledger confirms decisions now
    exact ⟨rfl, by simp [main], rfl⟩
  · intro args pathArg mountLines homeCloudDirs hashFn ledger confirms decisions now
    exact ⟨rfl, by simp [main], rfl⟩
  · intro args pathArg root mountLines homeCloudDirs hashFn ledger confirms decisions now
    rfl

mutual

/-- Relabel every directory's device identifier in a subtree (file entries
untouched). -/
def relabelEntry (f : Nat → Nat) : Entry → Entry
  | .file n d => .file n d
  | .dir n dev es => .dir n (f dev) (relabelEntries f es)

/-- Relabel device identifiers across a directory listing. -/
def relabelEntries (f : Nat → Nat) : List Entry → List Entry
  | [] => []
  | e :: es => relabelEntry f e :: relabelEntries f es

end

/-- Relabeling devices keeps every entry's name. -/
theorem entryName_relabel (f : Nat → Nat) (e : Entry) :
    entryName (relabelEntry f e) = entryName e := by
  cases e <;> rfl

/-- Relabeling devices keeps every entry's file/directory kind. -/
theorem entryIsFile_relabel (f : Nat → Nat) (e : Entry) :
    entryIsFile (relabelEntry f e) = entryIsFile e := by
  cases e <;> rfl

/-- Relabeling devices does not change which sibling files exist. -/
theorem hasFileNamed_relabel (f : Nat → Nat) (es : List Entry) (n : Str) :
    hasFileNamed (relabelEntries f es) n = hasFileNamed es n := by
  induction es with
  | nil => rfl
  | cons e t ih =>
    simp only [hasFileNamed, relabelEntries, List.any_cons] at ih ⊢
    rw [entryName_relabel, entryIsFile_relabel, ih]

/-- A filterMap insensitive to device labels is unchanged by relabeling. -/
theorem filterMap_relabel (f : Nat → Nat) (g : Entry → Option (Str × Str))
    (hg : ∀ e, g (relabelEntry f e) = g e) :
    ∀ l : List Entry, (relabelEntries f l).filterMap g = l.filterMap g := by
  intro l
  induction l with
  | nil => rfl
  | cons e t ih => simp only [relabelEntries, List.filterMap_cons, hg, ih]

/-- Pair detection inside one directory ignores device labels. -/
theorem dirPairs_relabel (f : Nat → Nat) (p : Str) (es : List Entry) :
    dirPairs p (relabelEntries f es) = dirPairs p es := by
  unfold dirPairs
  simp only [hasFileNamed_relabel]
  apply filterMap_relabel
  intro e
  cases e <;> rfl

/-- C10: in non-recursive mode the boundary classifier is never applied —
the scan result is identical for every setting of the cross-device and
include-local-mounts flags, for every set of detected cloud mounts, and for
every relabeling of the device identifiers in the tree, and no path is ever
reported as skipped for a boundary reason. -/
theorem nonrecursive_scan_ignores_boundaries
    (directory : Str) (root : Entry) (cd cd2 ilm ilm2 : Bool)
    (mp mp2 : List Str) (f : Nat → Nat) :
    find_conflicted_pairs directory root false cd ilm mp =
      find_conflicted_pairs directory (relabelEntry f root) false cd2 ilm2 mp2 ∧
    (find_conflicted_pairs directory root false cd ilm mp).2 = [] := by
  constructor
  · cases root with
    | file n d => rfl
    | dir n dev es =>
      show (dirPairs directory es, ([] : List BoundarySkip)) =
        (dirPairs directory (relabelEntries f es), [])
      rw [dirPairs_relabel]
  · cases root <;> rfl
